import Mathlib

/-!
# Verification of the ebiten `audio` writer-context player core

Shallow embedding of `writerContextPlayerImpl` (package `audio`): the
player lifecycle (`Close`, `Play`, `Pause`, `IsPlaying`), the
read-and-transform chunk step (`read`), seeking and position tracking
(`Seek`, `Rewind`, `Current`), volume handling (`SetVolume`, `Volume`),
and the context-level admission semaphore modelled as a step relation.

Go machine integers (`int64`, `int16`, `byte`) are embedded as `ℤ`/`ℕ`
with explicit wrap-around (`% 2^64`, `% 2^16`, `% 2^8`) where the source
can overflow.  Go's `/` and `%` on signed integers truncate toward zero,
so they are embedded as `Int.tdiv` / `Int.tmod`; Go's arithmetic right
shift on a signed value rounds toward negative infinity, embedded as
`Int.fdiv`.  Go `float64` values are embedded exactly: a finite double is
a rational number, so a value is `GoFloat.nan`, an infinity, or
`GoFloat.val (q : ℚ)`; the one floating-point multiplication in the code
(`float64(v16) * p.volume`) is embedded as exact rational multiplication,
which agrees bit-for-bit with IEEE double arithmetic for the volumes
0, 0.5 and 1 considered by the scaling claims (products of an `int16`
value with these are exactly representable).  Go `panic` is embedded as
`Option.none`; a returned `error` as `Option String`.
-/

namespace EbitenAudio

/-- Modelled from the spec: the constant `bytesPerSample` is declared
outside the provided source file.  Glossary: "Sample: one 16-bit signed
PCM amplitude value, 2 bytes, little-endian"; `pendingBuffer` holds "0 to
1 sample-size minus 1 byte" and every emitted chunk "has even length". -/
def bytesPerSample : Nat := 2

/-- Go `int64` wrap-around: the unique value in `[-2^63, 2^63)` congruent
mod `2^64`.  Go defines signed overflow as two's-complement wrap. -/
def wrap64 (z : ℤ) : ℤ := (z + 2 ^ 63) % 2 ^ 64 - 2 ^ 63

/-- Go `int16(x)` conversion wrap: the unique value in `[-2^15, 2^15)`
congruent mod `2^16`. -/
def toInt16Wrap (z : ℤ) : ℤ := (z + 2 ^ 15) % 2 ^ 16 - 2 ^ 15

/-- `byte(x)`: the low 8 bits of a signed value, as an unsigned byte. -/
def byteLow (z : ℤ) : Nat := (z % 256).toNat

/-- `byte(x >> 8)`: arithmetic shift right by 8 (floor division by 256),
then the low 8 bits.  This extracts the high byte of the two's-complement
representation of an `int16` value. -/
def byteHigh (z : ℤ) : Nat := ((Int.fdiv z 256) % 256).toNat

/-- `v16 := int16(buf[2*i]) | (int16(buf[2*i+1]) << 8)` — the shifted
value has zero low byte, so the bitwise or is addition; the `<< 8` wraps
in `int16`, which the outer `toInt16Wrap` reproduces (the low byte, being
below 256, is unaffected by the wrap). -/
def decode16 (b0 b1 : Nat) : ℤ := toInt16Wrap ((b0 % 256 : ℤ) + 256 * (b1 % 256 : ℤ))

/-- Go float-to-integer conversion truncates toward zero; on an exact
rational this is `Int.tdiv` of numerator by denominator. -/
def ratTrunc (q : ℚ) : ℤ := Int.tdiv q.num q.den

/-- One iteration of the scaling loop body:
`v16 = int16(float64(v16) * p.volume)` for a finite volume `vol`. -/
def scaleSample (vol : ℚ) (z : ℤ) : ℤ := toInt16Wrap (ratTrunc ((z : ℚ) * vol))

/-- The in-place volume-scaling loop of `read` (lines 184–189): each
consecutive byte pair is decoded as a little-endian `int16`, scaled, and
written back little-endian.  A trailing unpaired byte (`i < len(buf)/2`)
is left untouched; at the call site the chunk length is always even. -/
def scaleChunk (vol : ℚ) : List Nat → List Nat
  | b0 :: b1 :: rest =>
    byteLow (scaleSample vol (decode16 b0 b1)) ::
      byteHigh (scaleSample vol (decode16 b0 b1)) :: scaleChunk vol rest
  | l => l

/-- All elements are genuine byte values. -/
def validBytes (l : List Nat) : Prop := ∀ b ∈ l, b < 256

instance (l : List Nat) : Decidable (validBytes l) := by
  unfold validBytes; infer_instance

/-- A Go `float64` value, embedded exactly: NaN, an infinity, or a finite
value (every finite double is a rational number). -/
inductive GoFloat where
  | nan
  | inf
  | negInf
  | val (q : ℚ)
deriving DecidableEq

/-- Go `<=` on `float64`: any comparison with NaN is false; otherwise the
IEEE order (in which both infinities compare with everything). -/
def GoFloat.fle : GoFloat → GoFloat → Bool
  | .nan, _ => false
  | _, .nan => false
  | .negInf, _ => true
  | _, .negInf => false
  | _, .inf => true
  | .inf, _ => false
  | .val a, .val b => a ≤ b

/-- The rational value of a finite `GoFloat` (callers establish
finiteness before using this). -/
def GoFloat.toRatValue : GoFloat → ℚ
  | .val q => q
  | _ => 0

/-- Modelled from the spec: the `Context` type lives outside the provided
source file.  "`players`: set of live Player references" (embedded as the
cardinality of the live set); "`err` is set at most once and is sticky
(first error wins, never cleared)"; `SetError` is "sticky — only the
first call takes effect; subsequent calls are no-ops". -/
structure Context where
  err : Option String
  players : Nat
deriving DecidableEq

/-- Modelled from the spec: sticky first-error-wins `Context.setError`. -/
def Context.setError (c : Context) (e : String) : Context :=
  if c.err.isSome then c else { c with err := some e }

/-- Modelled from the spec: `HasError` reports whether the sticky error
has been set. -/
def Context.hasError (c : Context) : Bool := c.err.isSome

/-- Modelled from the spec: `AddPlayer` registers a player in the live
set (embedded as incrementing the live-set cardinality). -/
def Context.addPlayer (c : Context) : Context := { c with players := c.players + 1 }

/-- The mutable state of `writerContextPlayerImpl`.  The `io.Reader`
source is externalised: each read's outcome is an input to `read`
(`ReadResult`), and `srcSeekable` records whether the source implements
`io.Seeker`.  The scratch buffer `readbuf` has no observable effect and
is omitted; the mutex is the atomicity of each embedded operation. -/
structure writerContextPlayerImpl where
  playing : Bool
  closedExplicitly : Bool
  isLoopActive : Bool
  buf : List Nat
  pos : ℤ
  volume : GoFloat
  sampleRate : ℤ
  srcSeekable : Bool
deriving DecidableEq

/-- The outcome of one `p.src.Read(...)` call: `ok bytes` is `err == nil`
with `n = len(bytes)` bytes produced; `eof bytes` is `err == io.EOF` with
`n` bytes produced; `fail bytes e` is any other error (the bytes read
alongside it are discarded by the code). -/
inductive ReadResult where
  | ok (bytes : List Nat)
  | eof (bytes : List Nat)
  | fail (bytes : List Nat) (e : String)
deriving DecidableEq

/-- The bytes produced by a source read, whatever its error status. -/
def ReadResult.newBytes : ReadResult → List Nat
  | .ok bs => bs
  | .eof bs => bs
  | .fail bs _ => bs

/-- `Close` (lines 67–77): sets `playing = false`, then returns the
already-closed error if `closedExplicitly`, otherwise marks it. -/
def Close (p : writerContextPlayerImpl) : writerContextPlayerImpl × Option String :=
  let p := { p with playing := false }
  if p.closedExplicitly then (p, some "audio: the player is already closed")
  else ({ p with closedExplicitly := true }, none)

/-- `Play` (lines 79–99).  On a closed player it records the
already-closed condition as the context's sticky error and returns.
Otherwise it sets `playing`; if `isLoopActive` it returns, else it sets
`isLoopActive`, registers with the context and launches the pipeline.
The returned `Bool` is whether `go p.loop()` was spawned. -/
def Play (p : writerContextPlayerImpl) (c : Context) :
    writerContextPlayerImpl × Context × Bool :=
  if p.closedExplicitly then
    (p, c.setError "audio: the player is already closed", false)
  else
    let p := { p with playing := true }
    if p.isLoopActive then (p, c, false)
    else ({ p with isLoopActive := true }, c.addPlayer, true)

/-- `IsPlaying` (lines 195–200). -/
def IsPlaying (p : writerContextPlayerImpl) : Bool := p.playing

/-- `Pause` (lines 230–234). -/
def Pause (p : writerContextPlayerImpl) : writerContextPlayerImpl :=
  { p with playing := false }

/-- `SetVolume` (lines 250–259): `if !(0 <= volume && volume <= 1)`
panics (embedded as `none`) — the condition is true when volume is NaN,
because NaN fails both comparisons; otherwise stores the volume. -/
def SetVolume (p : writerContextPlayerImpl) (v : GoFloat) :
    Option writerContextPlayerImpl :=
  if !(GoFloat.fle (.val 0) v && GoFloat.fle v (.val 1)) then none
  else some { p with volume := .val v.toRatValue }

/-- `Volume` (lines 243–248). -/
def Volume (p : writerContextPlayerImpl) : GoFloat := p.volume

/-- The finite rational value of the player's volume, for the scaling
loop.  `SetVolume` only ever stores finite values in `[0,1]`, and the
spec's data-model invariant is `volume`: float in `[0.0, 1.0]`. -/
def volumeRat (p : writerContextPlayerImpl) : ℚ := p.volume.toRatValue

/-- The tail of `read` once all abort checks have passed (lines 179–192):
concatenate the pending leftover with the newly read bytes, split at the
last whole-sample boundary, volume-scale the aligned prefix in place,
advance `pos` by the emitted length, and emit with success. -/
def emitChunk (p : writerContextPlayerImpl) (c : Context) (bytes : List Nat) :
    writerContextPlayerImpl × Context × Option (List Nat) :=
  let buf := p.buf ++ bytes
  let n2 := buf.length - buf.length % bytesPerSample
  ({ p with buf := buf.drop n2, pos := wrap64 (p.pos + (buf.take n2).length) },
    c, some (scaleChunk (volumeRat p) (buf.take n2)))

/-- `read` (lines 142–193): one read-and-transform step.  Returns the
updated player, the updated context, and `some chunk` for success or
`none` for "signal end" (`return nil, false`).  The semaphore
acquire/release (lines 161–164) bounds concurrency only and is modelled
separately as a step relation (`semStep`). -/
def read (p : writerContextPlayerImpl) (c : Context) (r : ReadResult) :
    writerContextPlayerImpl × Context × Option (List Nat) :=
  if c.hasError then (p, c, none)
  else if p.closedExplicitly then (p, c, none)
  else if !p.playing then (p, c, none)
  else
    match r with
    | .fail _ e => (p, c.setError e, none)
    | .eof bytes => if bytes.length = 0 then (p, c, none) else emitChunk p c bytes
    | .ok bytes => emitChunk p c bytes

/-- The producer loop of `loop()` (lines 133–139) restricted to the read
stage: perform `read` steps against successive source-read outcomes,
collecting the emitted chunks, stopping at the first step that signals
end. -/
def readMany (p : writerContextPlayerImpl) (c : Context) :
    List ReadResult → writerContextPlayerImpl × Context × List (List Nat)
  | [] => (p, c, [])
  | r :: rs =>
    match read p c r with
    | (p', c', none) => (p', c', [])
    | (p', c', some chunk) =>
      let res := readMany p' c' rs
      (res.1, res.2.1, chunk :: res.2.2)

/-- The source bytes actually consumed by `readMany`: the bytes of every
read outcome up to (excluding) the first step that signals end. -/
def consumedBytes (p : writerContextPlayerImpl) (c : Context) :
    List ReadResult → List Nat
  | [] => []
  | r :: rs =>
    match read p c r with
    | (_, _, none) => []
    | (p', c', some _) => r.newBytes ++ consumedBytes p' c' rs

/-- `int64(time.Second)`: one second in nanoseconds. -/
def second : ℤ := 1000000000

/-- `Seek` (lines 209–228): panics (`none`) if the source is not an
`io.Seeker`; otherwise converts the duration offset (nanoseconds of a Go
`time.Duration`) to a byte offset, rounds down to a whole-sample
boundary, repositions the source, discards the pending buffer and resets
the tracked position.  The source seek is modelled from the spec's
source contract ("randomly seekable (byte-offset seek from start)"):
seeking to absolute offset `o` succeeds and returns `o`. -/
def Seek (p : writerContextPlayerImpl) (offset : ℤ) :
    Option writerContextPlayerImpl :=
  if p.srcSeekable = false then none
  else
    let o0 := wrap64 (wrap64 (offset * (bytesPerSample : ℤ)) * p.sampleRate)
    let o1 := Int.tdiv o0 second
    let o := o1 - Int.tmod o1 (bytesPerSample : ℤ)
    some { p with buf := [], pos := o }

/-- `Rewind` (lines 202–207): panics (`none`) if the source is not an
`io.Seeker`, otherwise `Seek(0)`. -/
def Rewind (p : writerContextPlayerImpl) : Option writerContextPlayerImpl :=
  if p.srcSeekable = false then none else Seek p 0

/-- `Current` (lines 236–241):
`time.Duration(p.pos / bytesPerSample) * time.Second / time.Duration(p.sampleRate)`
in nanoseconds, with Go `int64` truncating division and wrapping
multiplication. -/
def Current (p : writerContextPlayerImpl) : ℤ :=
  Int.tdiv (wrap64 (Int.tdiv p.pos (bytesPerSample : ℤ) * second)) p.sampleRate

/-- The admission semaphore (lines 161–164: a buffered channel of
capacity `K`; `p.context.semaphore <- struct{}{}` blocks while `K`
tokens are outstanding, the deferred receive releases unconditionally).
State: the set of players currently holding a slot, i.e. whose source
read is in flight.  `acquire` is enabled only below capacity; `release`
is always enabled for a holder. -/
inductive semStep (K : Nat) {n : Nat} : Finset (Fin n) → Finset (Fin n) → Prop
  | acquire (s : Finset (Fin n)) (i : Fin n) (hi : i ∉ s) (hc : s.card < K) :
      semStep K s (insert i s)
  | release (s : Finset (Fin n)) (i : Fin n) (hi : i ∈ s) :
      semStep K s (s.erase i)

/-- States reachable by interleaved acquire/release steps of the `n`
players sharing one context, starting from no read in flight. -/
inductive semReachable (K n : Nat) : Finset (Fin n) → Prop
  | init : semReachable K n ∅
  | step {s s' : Finset (Fin n)} (h : semReachable K n s)
      (hs : semStep K s s') : semReachable K n s'

/-! ## Helper lemmas -/

theorem wrap64_eq_self {z : ℤ} (h1 : -(2 ^ 63) ≤ z) (h2 : z < 2 ^ 63) :
    wrap64 z = z := by
  unfold wrap64; omega

theorem toInt16Wrap_eq_self {z : ℤ} (h1 : -(2 ^ 15) ≤ z) (h2 : z < 2 ^ 15) :
    toInt16Wrap z = z := by
  unfold toInt16Wrap; omega

theorem decode16_range (b0 b1 : Nat) :
    -(2 ^ 15) ≤ decode16 b0 b1 ∧ decode16 b0 b1 < 2 ^ 15 := by
  unfold decode16 toInt16Wrap; omega

theorem ratTrunc_intCast (z : ℤ) : ratTrunc ((z : ℚ)) = z := by
  simp [ratTrunc, Rat.num_intCast, Rat.den_intCast]

theorem scaleSample_one (z : ℤ) (h1 : -(2 ^ 15) ≤ z) (h2 : z < 2 ^ 15) :
    scaleSample 1 z = z := by
  rw [scaleSample, mul_one, ratTrunc_intCast, toInt16Wrap_eq_self h1 h2]

theorem scaleSample_zero (z : ℤ) : scaleSample 0 z = 0 := by
  rw [scaleSample, mul_zero]
  simp [ratTrunc, toInt16Wrap]

/-- Decoding two genuine bytes as a little-endian `int16` and re-encoding
the value little-endian recovers the bytes. -/
theorem byte_roundtrip (b0 b1 : Nat) (h0 : b0 < 256) (h1 : b1 < 256) :
    byteLow (decode16 b0 b1) = b0 ∧ byteHigh (decode16 b0 b1) = b1 := by
  unfold byteLow byteHigh decode16 toInt16Wrap
  rw [Int.fdiv_eq_ediv _ (by norm_num)]
  omega

/-- Volume 1 is the identity on the scaling loop. -/
theorem scaleChunk_one : ∀ l : List Nat, validBytes l → scaleChunk 1 l = l
  | [], _ => by simp [scaleChunk]
  | [b], _ => by simp [scaleChunk]
  | b0 :: b1 :: rest, h => by
    have hb0 : b0 < 256 := h b0 (by simp)
    have hb1 : b1 < 256 := h b1 (by simp)
    have ih := scaleChunk_one rest (fun b hb => h b (by simp [hb]))
    have hr := decode16_range b0 b1
    have hbr := byte_roundtrip b0 b1 hb0 hb1
    simp only [scaleChunk, ih, scaleSample_one _ hr.1 hr.2, hbr.1, hbr.2]

/-- Volume 0 zeroes every sample of an even-length chunk. -/
theorem scaleChunk_zero : ∀ l : List Nat, l.length % 2 = 0 →
    scaleChunk 0 l = List.replicate l.length 0
  | [], _ => by simp [scaleChunk]
  | [b], h => by simp at h
  | b0 :: b1 :: rest, h => by
    have ih := scaleChunk_zero rest (by simp at h; omega)
    simp only [scaleChunk, ih, scaleSample_zero]
    simp [List.replicate_succ, byteLow, byteHigh, Int.fdiv]

theorem scaleChunk_length (vol : ℚ) : ∀ l : List Nat,
    (scaleChunk vol l).length = l.length
  | [] => by simp [scaleChunk]
  | [b] => by simp [scaleChunk]
  | b0 :: b1 :: rest => by
    simp only [scaleChunk, List.length_cons, scaleChunk_length vol rest]

/-- Inversion: a `read` step that signals end leaves the player
unchanged (every abort path returns `p` itself). -/
theorem read_none_player {p : writerContextPlayerImpl} {c : Context}
    {r : ReadResult} {p' : writerContextPlayerImpl} {c' : Context}
    (h : EbitenAudio.read p c r = (p', c', none)) : p' = p := by
  unfold EbitenAudio.read emitChunk at h
  repeat' split at h
  all_goals simp only [Prod.mk.injEq] at h
  all_goals first
    | exact h.1.symm
    | exact Option.noConfusion h.2.2

/-- Inversion: a successful `read` step splits the pending buffer plus
the new bytes at the last whole-sample boundary, keeps the remainder as
the new pending buffer, advances `pos` by the emitted length, leaves the
context unchanged, and emits the volume-scaled aligned prefix. -/
theorem read_some_inv {p : writerContextPlayerImpl} {c : Context}
    {r : ReadResult} {p' : writerContextPlayerImpl} {c' : Context}
    {chunk : List Nat}
    (h : EbitenAudio.read p c r = (p', c', some chunk)) :
    p' = { p with
            buf := (p.buf ++ r.newBytes).drop
              ((p.buf ++ r.newBytes).length -
                (p.buf ++ r.newBytes).length % bytesPerSample),
            pos := wrap64 (p.pos + ((p.buf ++ r.newBytes).take
              ((p.buf ++ r.newBytes).length -
                (p.buf ++ r.newBytes).length % bytesPerSample)).length) } ∧
    c' = c ∧
    chunk = scaleChunk (volumeRat p) ((p.buf ++ r.newBytes).take
      ((p.buf ++ r.newBytes).length -
        (p.buf ++ r.newBytes).length % bytesPerSample)) := by
  unfold EbitenAudio.read emitChunk at h
  repeat' split at h
  all_goals simp only [Prod.mk.injEq, Option.some.injEq] at h
  all_goals try exact Option.noConfusion h.2.2
  all_goals simp only [ReadResult.newBytes]
  all_goals exact ⟨h.1.symm, h.2.1.symm, h.2.2.symm⟩

/-! ## Claims -/

/-- Claim C1, counterexample.  The claim asserts that `Play()` on an
explicitly closed player leaves the shared context unbroken so sibling
players are unaffected.  In the code, the closed branch of `Play` (line
84) reports the condition through `p.context.setError(...)`: at this
concrete input the fresh shared context comes out of `Play` with its
sticky error set — every sibling player's next `read` observes it and
stops. -/
theorem claim_C1_counterexample :
    ((Play { playing := false, closedExplicitly := true, isLoopActive := false,
             buf := [], pos := 0, volume := .val 1, sampleRate := 44100,
             srcSeekable := false }
        { err := none, players := 0 }).2.1).err =
      some "audio: the player is already closed" := rfl

/-- Claim C1 as amended: calling `Play()` on an explicitly closed player
reports the already-closed condition by recording it as the shared
context's sticky error, leaves the player itself unchanged (it is not set
to Playing) and spawns no streaming pipeline; contrary to the original
claim the shared context IS marked broken, so sibling players of the same
context observe the sticky error and stop. -/
theorem claim_C1_amended (p : writerContextPlayerImpl) (c : Context) :
    Play { p with closedExplicitly := true } c =
      ({ p with closedExplicitly := true },
        c.setError "audio: the player is already closed", false) := by
  simp [Play]

/-- Claim C2: one read-and-transform step signals end iff the context
holds a sticky error, the player is explicitly closed, the player is not
playing, the source read is a clean end-of-stream with zero new bytes, or
the source read failed; a failure reaching the read (no earlier abort)
is recorded as the context's sticky error; in every other case a chunk is
emitted with success, including a zero-length chunk when fewer than one
whole sample is available. -/
theorem claim_C2 (p : writerContextPlayerImpl) (c : Context) (r : ReadResult) :
    ((EbitenAudio.read p c r).2.2 = none ↔
      (c.hasError = true ∨ p.closedExplicitly = true ∨ p.playing = false ∨
        r = .eof [] ∨ ∃ bs e, r = .fail bs e)) ∧
    (∀ bs e, EbitenAudio.read { p with playing := true, closedExplicitly := false }
        { c with err := none } (.fail bs e) =
      ({ p with playing := true, closedExplicitly := false },
        { c with err := some e }, none)) ∧
    (∀ b : Nat,
      EbitenAudio.read
          { p with playing := true, closedExplicitly := false, buf := [], pos := 0 }
          { c with err := none } (.ok [b]) =
        ({ p with playing := true, closedExplicitly := false, buf := [b], pos := 0 },
          { c with err := none }, some [])) := by
  refine ⟨?_, ?_, ?_⟩
  · by_cases hE : c.hasError <;> by_cases hC : p.closedExplicitly <;>
      by_cases hP : p.playing <;>
      cases r <;>
      simp [EbitenAudio.read, emitChunk, hE, hC, hP, List.length_eq_zero] <;>
      (try (split <;> simp_all))
  · intro bs e
    simp [EbitenAudio.read, Context.hasError, Context.setError]
  · intro b
    simp [EbitenAudio.read, Context.hasError, emitChunk, bytesPerSample,
      volumeRat, scaleChunk, wrap64]

/-- Claim C3: at volume 1 (so scaling is the identity and the byte flow
is observable), across an arbitrary sequence of source reads of
arbitrary sizes every emitted chunk has length an exact multiple of the
sample size, the pending leftover buffer always holds fewer than
`bytesPerSample` bytes, and the concatenation of all emitted chunks
followed by the final leftover equals the initial leftover followed by
all consumed source bytes — no byte is lost or reordered. -/
theorem claim_C3 (rs : List ReadResult) (p : writerContextPlayerImpl)
    (c : Context)
    (hvol : p.volume = GoFloat.val 1) (hbuf : validBytes p.buf)
    (hrs : ∀ r ∈ rs, validBytes r.newBytes)
    (hlen : p.buf.length < bytesPerSample) :
    (∀ ch ∈ (readMany p c rs).2.2, ch.length % bytesPerSample = 0) ∧
    (readMany p c rs).1.buf.length < bytesPerSample ∧
    ((readMany p c rs).2.2).flatten ++ (readMany p c rs).1.buf =
      p.buf ++ consumedBytes p c rs := by
  induction rs generalizing p c with
  | nil =>
    simp [readMany, consumedBytes, hlen]
  | cons r rs ih =>
    rcases hres : EbitenAudio.read p c r with ⟨p', c', res⟩
    cases res with
    | none =>
      have hp : p' = p := read_none_player hres
      subst hp
      simp only [readMany, consumedBytes, hres]
      simp [hlen]
    | some chunk =>
      obtain ⟨hp', hc', hch⟩ := read_some_inv hres
      have hall : validBytes (p.buf ++ r.newBytes) := by
        intro b hb
        rcases List.mem_append.mp hb with h1 | h2
        · exact hbuf b h1
        · exact hrs r (by simp) b h2
      have hvol' : p'.volume = GoFloat.val 1 := by rw [hp']; exact hvol
      have hvalid' : validBytes p'.buf := by
        rw [hp']
        intro b hb
        exact hall b (List.mem_of_mem_drop hb)
      have hlen' : p'.buf.length < bytesPerSample := by
        rw [hp']
        simp only [List.length_drop, bytesPerSample]
        omega
      have hvr : volumeRat p = 1 := by
        rw [volumeRat, hvol]; rfl
      have htake_valid : validBytes ((p.buf ++ r.newBytes).take
          ((p.buf ++ r.newBytes).length -
            (p.buf ++ r.newBytes).length % bytesPerSample)) := by
        intro b hb
        exact hall b (List.mem_of_mem_take hb)
      have hchunk : chunk = (p.buf ++ r.newBytes).take
          ((p.buf ++ r.newBytes).length -
            (p.buf ++ r.newBytes).length % bytesPerSample) := by
        rw [hch, hvr, scaleChunk_one _ htake_valid]
      have hchlen : chunk.length % bytesPerSample = 0 := by
        rw [hchunk]
        simp only [List.length_take, bytesPerSample]
        omega
      have hcons : chunk ++ p'.buf = p.buf ++ r.newBytes := by
        rw [hchunk, hp']
        exact List.take_append_drop _ _
      obtain ⟨ih1, ih2, ih3⟩ := ih p' c' hvol' hvalid'
        (fun x hx => hrs x (by simp [hx])) hlen'
      refine ⟨?_, ?_, ?_⟩
      · intro ch hch2
        simp only [readMany, hres] at hch2
        simp only [List.mem_cons] at hch2
        rcases hch2 with rfl | hmem
        · exact hchlen
        · exact ih1 ch hmem
      · simp only [readMany, hres]
        exact ih2
      · simp only [readMany, consumedBytes, hres]
        simp only [List.flatten_cons]
        rw [List.append_assoc, ih3, ← List.append_assoc, hcons,
          List.append_assoc]

/-- Witness for claim C3 at a concrete player (pending byte `[5]`,
volume 1) and two source reads that split samples across boundaries. -/
theorem claim_C3_witness :
    (∀ ch ∈ (readMany
        { playing := true, closedExplicitly := false, isLoopActive := true,
          buf := [5], pos := 0, volume := GoFloat.val 1, sampleRate := 44100,
          srcSeekable := false }
        { err := none, players := 1 }
        [ReadResult.ok [1, 2, 3], ReadResult.eof [4]]).2.2,
      ch.length % bytesPerSample = 0) ∧
    (readMany
        { playing := true, closedExplicitly := false, isLoopActive := true,
          buf := [5], pos := 0, volume := GoFloat.val 1, sampleRate := 44100,
          srcSeekable := false }
        { err := none, players := 1 }
        [ReadResult.ok [1, 2, 3], ReadResult.eof [4]]).1.buf.length <
      bytesPerSample ∧
    ((readMany
        { playing := true, closedExplicitly := false, isLoopActive := true,
          buf := [5], pos := 0, volume := GoFloat.val 1, sampleRate := 44100,
          srcSeekable := false }
        { err := none, players := 1 }
        [ReadResult.ok [1, 2, 3], ReadResult.eof [4]]).2.2).flatten ++
      (readMany
        { playing := true, closedExplicitly := false, isLoopActive := true,
          buf := [5], pos := 0, volume := GoFloat.val 1, sampleRate := 44100,
          srcSeekable := false }
        { err := none, players := 1 }
        [ReadResult.ok [1, 2, 3], ReadResult.eof [4]]).1.buf =
      [5] ++ consumedBytes
        { playing := true, closedExplicitly := false, isLoopActive := true,
          buf := [5], pos := 0, volume := GoFloat.val 1, sampleRate := 44100,
          srcSeekable := false }
        { err := none, players := 1 }
        [ReadResult.ok [1, 2, 3], ReadResult.eof [4]] :=
  claim_C3 [ReadResult.ok [1, 2, 3], ReadResult.eof [4]]
    { playing := true, closedExplicitly := false, isLoopActive := true,
      buf := [5], pos := 0, volume := GoFloat.val 1, sampleRate := 44100,
      srcSeekable := false }
    { err := none, players := 1 }
    rfl (by decide) (by decide) (by decide)

/-- Claim C4: `SetVolume(v)` succeeds, storing `v` as the player's
volume, iff `v` is a finite value with `0 ≤ v ≤ 1`; every other value —
NaN, the infinities, finite out-of-range values — fails the same bounds
check and aborts loudly (`panic`, embedded as `none`) at the call site
rather than clamping. -/
theorem claim_C4 (p : writerContextPlayerImpl) (v : GoFloat) :
    ((SetVolume p v).isSome ↔ ∃ q : ℚ, v = .val q ∧ 0 ≤ q ∧ q ≤ 1) ∧
    (∀ q : ℚ, SetVolume p (.val q) =
      if 0 ≤ q ∧ q ≤ 1 then some { p with volume := .val q } else none) ∧
    SetVolume p .nan = none ∧ SetVolume p .inf = none ∧
    SetVolume p .negInf = none := by
  refine ⟨?_, ?_, ?_, ?_, ?_⟩
  · cases v <;> simp [SetVolume, GoFloat.fle, GoFloat.toRatValue]
  · intro q
    by_cases h : 0 ≤ q ∧ q ≤ 1 <;>
      simp [SetVolume, GoFloat.fle, GoFloat.toRatValue, h]
  · simp [SetVolume, GoFloat.fle]
  · simp [SetVolume, GoFloat.fle]
  · simp [SetVolume, GoFloat.fle]

/-- Concrete half-volume scaling: the little-endian pair for sample 1000
scales to the pair for sample 500. -/
theorem scaleChunk_half : scaleChunk (1/2) [232, 3] = [244, 1] := by
  have hs : scaleSample (1/2) (decode16 232 3) = 500 := by
    have hd : decode16 232 3 = 1000 := by decide
    rw [scaleSample, hd]
    have h1 : ((1000 : ℤ) : ℚ) * (1/2) = ((500 : ℤ) : ℚ) := by norm_num
    rw [h1, ratTrunc_intCast]
    decide
  simp only [scaleChunk]
  rw [hs]
  decide

/-- Claim C5: interpreting consecutive byte pairs of a chunk as
little-endian signed 16-bit samples, the volume-scaling step of `read` is
the identity at volume 1.0, zeroes every sample at volume 0.0, and at
volume 0.5 maps input sample 1000 (bytes `[232, 3]`) to output sample 500
(bytes `[244, 1]`), truncating toward zero — including end to end through
a `read` step at volume 0.5. -/
theorem claim_C5 :
    (∀ l, validBytes l → scaleChunk 1 l = l) ∧
    (∀ l : List Nat, l.length % 2 = 0 →
      scaleChunk 0 l = List.replicate l.length 0) ∧
    decode16 232 3 = 1000 ∧ decode16 244 1 = 500 ∧
    scaleChunk (1/2) [232, 3] = [244, 1] ∧
    (∀ (p : writerContextPlayerImpl) (c : Context), (EbitenAudio.read
        { p with playing := true, closedExplicitly := false, buf := [], volume := .val (1/2) }
        { c with err := none } (.ok [232, 3])).2.2 =
      some [244, 1]) := by
  refine ⟨scaleChunk_one, scaleChunk_zero, by decide, by decide,
    scaleChunk_half, ?_⟩
  intro p c
  simp only [EbitenAudio.read, Context.hasError, emitChunk, volumeRat,
    GoFloat.toRatValue]
  norm_num [bytesPerSample, scaleChunk_half]

/-- Claim C6: on a player whose source supports random access, `Seek`
with a nonnegative offset that does not overflow `int64` succeeds,
discards the pending buffer, and resets the tracked position to the
duration-to-byte conversion `offset * bytesPerSample * sampleRate /
second` rounded down to the nearest whole-sample boundary (an even byte
offset bracketing the exact conversion within one sample); `Current()`
immediately afterwards returns the sought time within one-sample
rounding (`Current ≤ offset` and the shortfall times the sample rate is
at most one second plus one sample-rate unit of slack); and `Rewind()`
equals `Seek(0)`. -/
theorem claim_C6 (p : writerContextPlayerImpl) (t : ℤ)
    (hsk : p.srcSeekable = true) (hr : 0 < p.sampleRate) (ht : 0 ≤ t)
    (hb : t * (bytesPerSample : ℤ) * p.sampleRate < 2 ^ 63) :
    ∃ p', Seek p t = some p' ∧
      p'.buf = [] ∧
      (2 : ℤ) ∣ p'.pos ∧ 0 ≤ p'.pos ∧
      p'.pos ≤ t * (bytesPerSample : ℤ) * p.sampleRate / second ∧
      t * (bytesPerSample : ℤ) * p.sampleRate / second < p'.pos + 2 ∧
      0 ≤ Current p' ∧ Current p' ≤ t ∧
      (t - Current p') * p.sampleRate ≤ second + p.sampleRate ∧
      Rewind p = Seek p 0 := by
  have hbps : (bytesPerSample : ℤ) = 2 := by norm_num [bytesPerSample]
  have hsec : second = 1000000000 := rfl
  set r := p.sampleRate with hrdef
  have hr1 : (1 : ℤ) ≤ r := hr
  have h2t0 : 0 ≤ t * 2 := by linarith
  have hT0 : 0 ≤ t * 2 * r := mul_nonneg h2t0 (le_of_lt hr)
  have h2tle : t * 2 ≤ t * 2 * r := le_mul_of_one_le_right h2t0 hr1
  have hb' : t * 2 * r < 2 ^ 63 := by rw [hbps] at hb; exact hb
  have hw1 : wrap64 (t * 2) = t * 2 :=
    wrap64_eq_self (by linarith) (by linarith)
  have hw2 : wrap64 (t * 2 * r) = t * 2 * r :=
    wrap64_eq_self (by linarith) hb'
  set o1 : ℤ := t * 2 * r / 1000000000 with ho1def
  have hdecomp1 : 1000000000 * o1 + t * 2 * r % 1000000000 = t * 2 * r :=
    Int.ediv_add_emod _ _
  have hm9a : 0 ≤ t * 2 * r % 1000000000 := Int.emod_nonneg _ (by norm_num)
  have hm9b : t * 2 * r % 1000000000 < 1000000000 :=
    Int.emod_lt_of_pos _ (by norm_num)
  have ho10 : 0 ≤ o1 := Int.ediv_nonneg hT0 (by norm_num)
  have htdiv : Int.tdiv (t * 2 * r) 1000000000 = o1 :=
    Int.tdiv_eq_ediv hT0 (by norm_num)
  have hdecomp2 : 2 * (o1 / 2) + o1 % 2 = o1 := Int.ediv_add_emod _ _
  have hm2a : 0 ≤ o1 % 2 := Int.emod_nonneg _ (by norm_num)
  have hm2b : o1 % 2 < 2 := Int.emod_lt_of_pos _ (by norm_num)
  have htmod : Int.tmod o1 2 = o1 % 2 := Int.tmod_eq_emod ho10 (by norm_num)
  set o : ℤ := o1 - o1 % 2 with hodef
  have ho12 : 0 ≤ o1 / 2 := Int.ediv_nonneg ho10 (by norm_num)
  have ho0 : 0 ≤ o := by linarith
  have hoeq : o = 2 * (o1 / 2) := by linarith
  have hseek : Seek p t = some { p with buf := [], pos := o } := by
    simp only [Seek, hsk, Bool.true_eq_false, if_false, hbps, ← hrdef, hw1,
      hw2, hsec, htdiv, htmod]
  set s : ℤ := o / 2 with hsdef
  have hso : s = o1 / 2 := by
    rw [hsdef, hoeq, Int.mul_ediv_cancel_left _ (by norm_num : (2:ℤ) ≠ 0)]
  have hs0 : 0 ≤ s := by
    rw [hsdef]; exact Int.ediv_nonneg ho0 (by norm_num)
  have h2s : 2 * s + o1 % 2 = o1 := by rw [hso]; exact hdecomp2
  have htdivo : Int.tdiv o 2 = s := Int.tdiv_eq_ediv ho0 (by norm_num)
  have hP1 : s * 1000000000 ≤ t * 2 * r := by linarith
  have hP0 : 0 ≤ s * 1000000000 := by linarith
  have hw3 : wrap64 (s * 1000000000) = s * 1000000000 :=
    wrap64_eq_self (by linarith) (by linarith)
  set q : ℤ := s * 1000000000 / r with hqdef
  have hdecomp4 : r * q + s * 1000000000 % r = s * 1000000000 :=
    Int.ediv_add_emod _ _
  have hmra : 0 ≤ s * 1000000000 % r := Int.emod_nonneg _ (by linarith)
  have hmrb : s * 1000000000 % r < r := Int.emod_lt_of_pos _ hr
  have htdivq : Int.tdiv (s * 1000000000) r = q :=
    Int.tdiv_eq_ediv hP0 (le_of_lt hr)
  have hq0 : 0 ≤ q := Int.ediv_nonneg hP0 (le_of_lt hr)
  have hcur : Current { p with buf := ([] : List Nat), pos := o } = q := by
    simp only [Current, hbps, hsec, ← hrdef, htdivo, hw3, htdivq]
  have hA2 : t * 2 * r = 2 * (t * r) := by ring
  have hrt : r * t = t * r := mul_comm r t
  have hrqrt : r * q ≤ r * t := by linarith
  have hqt : q ≤ t := le_of_mul_le_mul_left hrqrt hr
  have hnear : (t - q) * r ≤ 1000000000 + r := by
    have hexp : (t - q) * r = t * r - q * r := by ring
    have hqr : q * r = r * q := mul_comm q r
    linarith
  refine ⟨{ p with buf := [], pos := o }, hseek, rfl, ⟨o1 / 2, hoeq⟩, ho0,
    ?_, ?_, ?_, ?_, ?_, ?_⟩
  · show o ≤ t * (bytesPerSample : ℤ) * r / second
    rw [hbps, hsec, ← ho1def]
    linarith
  · show t * (bytesPerSample : ℤ) * r / second < o + 2
    rw [hbps, hsec, ← ho1def]
    linarith
  · rw [hcur]; exact hq0
  · rw [hcur]; exact hqt
  · rw [hcur, hsec]; exact hnear
  · simp only [Rewind, hsk, Bool.true_eq_false, if_false]

/-- Witness for claim C6: seeking one second on a 44100 Hz seekable
player. -/
theorem claim_C6_witness :
    ∃ p', Seek
        { playing := false, closedExplicitly := false, isLoopActive := false,
          buf := [3], pos := 7, volume := GoFloat.val 1, sampleRate := 44100,
          srcSeekable := true } 1000000000 = some p' ∧
      p'.buf = [] ∧
      (2 : ℤ) ∣ p'.pos ∧ 0 ≤ p'.pos ∧
      p'.pos ≤ 1000000000 * (bytesPerSample : ℤ) * 44100 / second ∧
      1000000000 * (bytesPerSample : ℤ) * 44100 / second < p'.pos + 2 ∧
      0 ≤ Current p' ∧ Current p' ≤ 1000000000 ∧
      (1000000000 - Current p') * 44100 ≤ second + 44100 ∧
      Rewind
        { playing := false, closedExplicitly := false, isLoopActive := false,
          buf := [3], pos := 7, volume := GoFloat.val 1, sampleRate := 44100,
          srcSeekable := true } =
      Seek
        { playing := false, closedExplicitly := false, isLoopActive := false,
          buf := [3], pos := 7, volume := GoFloat.val 1, sampleRate := 44100,
          srcSeekable := true } 0 :=
  claim_C6
    { playing := false, closedExplicitly := false, isLoopActive := false,
      buf := [3], pos := 7, volume := GoFloat.val 1, sampleRate := 44100,
      srcSeekable := true } 1000000000
    rfl (by norm_num) (by norm_num) (by norm_num [bytesPerSample])

/-- Claim C7: the first `Close()` on a non-closed player succeeds
(returns no error) and marks the player explicitly closed; any further
`Close()` reports the distinguishable already-closed error. -/
theorem claim_C7 (p : writerContextPlayerImpl) :
    Close { p with closedExplicitly := false } =
      ({ p with playing := false, closedExplicitly := true }, none) ∧
    (Close (Close { p with closedExplicitly := false }).1).2 =
      some "audio: the player is already closed" := by
  constructor <;> simp [Close]

/-- Claim C8: `Play()` on a non-closed player whose `isLoopActive` flag
is already set only sets the playing flag and returns: the context is
untouched (the player is not registered a second time) and no second
pipeline is spawned (the spawn flag is `false`). -/
theorem claim_C8 (p : writerContextPlayerImpl) (c : Context) :
    Play { p with closedExplicitly := false, isLoopActive := true } c =
      ({ p with closedExplicitly := false, isLoopActive := true, playing := true },
        c, false) := by
  simp [Play]

/-- Claim C9: in every state reachable by interleaved acquire/release
steps of the admission semaphore (capacity `K`, shared by the `n`
players of a context, each slot acquired before a source read and
released unconditionally afterwards), at most `K` reads are in flight
simultaneously. -/
theorem claim_C9 (K n : Nat) (s : Finset (Fin n)) (h : semReachable K n s) :
    s.card ≤ K := by
  induction h with
  | init => simp
  | step h hs ih =>
    cases hs with
    | acquire i hi hc => rw [Finset.card_insert_of_not_mem hi]; omega
    | release i hi => rw [Finset.card_erase_of_mem hi]; omega

/-- Witness for claim C9: with capacity 1 and two players, the state in
which player 0 holds the slot is reachable and within the bound. -/
theorem claim_C9_witness :
    (insert (0 : Fin 2) (∅ : Finset (Fin 2))).card ≤ 1 :=
  claim_C9 1 2 (insert 0 ∅)
    (semReachable.step semReachable.init
      (semStep.acquire ∅ 0 (by simp) (by simp)))

/-- Claim C10: every `Close()` sets the playing flag to false before the
already-closed guard, so `IsPlaying` is false after any `Close` —
including one that fails: on an already-closed player `Close` still
returns the player with `playing := false` alongside the error, i.e. the
error path mutates state. -/
theorem claim_C10 (p : writerContextPlayerImpl) :
    IsPlaying (Close p).1 = false ∧
    (Close p).1.playing = false ∧
    (Close { p with closedExplicitly := true }).2 =
      some "audio: the player is already closed" ∧
    (Close { p with closedExplicitly := true }).1 =
      { p with playing := false, closedExplicitly := true } := by
  refine ⟨?_, ?_, ?_, ?_⟩ <;>
    by_cases h : p.closedExplicitly <;> simp [Close, IsPlaying, h]

end EbitenAudio
